import Mathlib

/-!
Shallow embedding of the storage-api validation & placement engine
(kerimovok/storage-api): the rule-matching file validator
(`internal/constants/validation_rules.go`), the size parser/formatter
(`internal/utils/common.go`, `FormatFileSize`), the path/name composer and
content hash (`internal/services/file_service.go`), and the configuration
accessors (`internal/config/config.go`).

Go strings are modelled as `List Char`; Go `int64` as `Int` (sizes in the
claims stay far from the 64-bit bounds; where the source's behaviour depends
on the bound, the bound is written out).
-/

namespace StorageApi

/-- Go strings, as lists of characters. -/
abbrev Str := List Char

/-! ## Go standard-library string primitives -/

/-- The whitespace recognised by Go `unicode.IsSpace`, restricted to the
ASCII range (the configuration strings and filenames at issue are ASCII). -/
def isGoSpace (c : Char) : Bool :=
  c = ' ' || c = '\t' || c = '\n' || c = '\x0b' || c = '\x0c' || c = '\r'

/-- Go `strings.TrimSpace`: drop leading and trailing whitespace. -/
def goTrimSpace (s : Str) : Str :=
  ((s.dropWhile isGoSpace).reverse.dropWhile isGoSpace).reverse

/-- Go `strings.HasPrefix`. -/
def goHasPrefixStr (s pre : Str) : Bool := pre.isPrefixOf s

/-- Go `strings.HasSuffix`. -/
def goHasSuffix (s suf : Str) : Bool := suf.reverse.isPrefixOf s.reverse

/-- Go `strings.TrimPrefix`: drop `pre` when it is a prefix, else return
`s` unchanged. -/
def goTrimPrefixStr (s pre : Str) : Str :=
  if goHasPrefixStr s pre then s.drop pre.length else s

/-- Go `strings.TrimSuffix`: drop `suf` when it is a suffix, else return
`s` unchanged. -/
def goTrimSuffix (s suf : Str) : Str :=
  if goHasSuffix s suf then s.take (s.length - suf.length) else s

/-- ASCII lower-casing of one character (Go `strings.ToLower` on the ASCII
range; the source's extensions and actions are ASCII). -/
def asciiLower (c : Char) : Char :=
  if 'A' ≤ c ∧ c ≤ 'Z' then Char.ofNat (c.toNat + 32) else c

/-- Go `strings.ToLower`, ASCII range. -/
def goToLower (s : Str) : Str := s.map asciiLower

/-- Go `strings.EqualFold`, modelled as ASCII case-insensitive equality. -/
def goEqualFold (a b : Str) : Bool := goToLower a == goToLower b

/-- Go `strings.Contains`: substring membership. -/
def goContains : Str → Str → Bool
  | s, sub =>
    sub.isPrefixOf s ||
      match s with
      | [] => false
      | _ :: rest => goContains rest sub

/-- Helper for `goFilepathExt`: walk the reversed name, collecting characters
until the first dot (return the extension) or a path separator / the start
of the name (no extension). -/
def filepathExtAux : Str → Str → Str
  | [], _ => []
  | c :: rest, acc =>
      if c = '/' then []
      else if c = '.' then '.' :: acc
      else filepathExtAux rest (c :: acc)

/-- Go `path/filepath.Ext`: the suffix beginning at the final dot in the
final slash-separated element of the path; empty if there is no dot. -/
def goFilepathExt (name : Str) : Str := filepathExtAux name.reverse []

/-- Decimal digit test (Go's per-byte digit checks in `strconv`). -/
def isDigitCh (c : Char) : Bool := '0' ≤ c && c ≤ '9'

/-- The value of a string of decimal digits. -/
def digitsToNat (l : Str) : Nat :=
  l.foldl (fun acc c => acc * 10 + (c.toNat - 48)) 0

/-- Go `strconv.ParseInt(s, 10, 64)`: optional sign, decimal digits,
64-bit range check. `none` is Go's non-nil error. -/
def goParseInt (s : Str) : Option Int :=
  if s = [] then none
  else
    let hasSign : Bool := s.head? == some '-' || s.head? == some '+'
    let neg : Bool := s.head? == some '-'
    let ds : Str := if hasSign then s.tail else s
    if ds = [] then none
    else if ds.all isDigitCh then
      let v : Int := (digitsToNat ds : Int)
      let v : Int := if neg then -v else v
      if v < -(2 ^ 63) || 2 ^ 63 - 1 < v then none else some v
    else none

/-- The value Go `strconv.ParseFloat` yields for the decimal strings at
issue, kept exact: sign, integer-part value, fraction-part value and the
number of fraction digits, denoting `(-1)^neg * (ip + fp / 10^fl)`. -/
structure GoFloat where
  neg : Bool
  ip : Nat
  fp : Nat
  fl : Nat
deriving DecidableEq, Repr

/-- Go `strconv.ParseFloat(s, 64)`, restricted to the decimal forms the
source's size strings use: optional sign, integer digits, optional fraction
digits after one dot (no exponent, hex, inf or NaN forms — those never
arise from the repository's size strings, and every string this development
feeds to the parser either fits this fragment or is rejected by Go as
well). The value is kept exact as a decimal. -/
def goParseFloat (s : Str) : Option GoFloat :=
  if s = [] then none
  else
    let hasSign : Bool := s.head? == some '-' || s.head? == some '+'
    let neg : Bool := s.head? == some '-'
    let ds : Str := if hasSign then s.tail else s
    let ipart := ds.takeWhile (fun c => c ≠ '.')
    let rest := ds.dropWhile (fun c => c ≠ '.')
    if ipart.all isDigitCh then
      match rest with
      | [] =>
          if ipart = [] then none
          else some ⟨neg, digitsToNat ipart, 0, 0⟩
      | _ :: fpart =>
          if fpart.all isDigitCh ∧ (ipart ≠ [] ∨ fpart ≠ []) then
            some ⟨neg, digitsToNat ipart, digitsToNat fpart, fpart.length⟩
          else none
    else none

/-- Go's `int64(f * mult)` on a parsed size: the exact product of the
decimal value with the unit multiplier, truncated toward zero (the
`float64` detour can only disturb this on contrived inputs whose rounding
error crosses an integer, which no size string at issue does). -/
def goFloatTimesTrunc (f : GoFloat) (mult : Nat) : Int :=
  let mag : Nat := f.ip * 10 ^ f.fl + f.fp
  let q : Nat := mag * mult / 10 ^ f.fl
  if f.neg then -(q : Int) else (q : Int)

/-! ## `utils.ParseSizeString` (internal/utils/common.go) -/

/-- One unit branch of `ParseSizeString`: if `s` ends in `suf`, trim it,
parse the rest as a float and scale by `mult` on success; the pair's second
component is the (possibly trimmed) string the Go code leaves in `sizeStr`
for the branches that follow. -/
def sizeUnitStep (suf : Str) (mult : Nat) (s : Str) : Option Int × Str :=
  if goHasSuffix s suf then
    let t := goTrimSuffix s suf
    (match goParseFloat t with
     | some q => some (goFloatTimesTrunc q mult)
     | none => none, t)
  else (none, s)

/-- Go `utils.ParseSizeString`: trim space, then try the `B`, `KB`, `MB`,
`GB`, `TB` suffixes in that order (the `B` branch is skipped when the
string ends in one of the two-letter units), each branch trimming the
suffix from the working string whether or not its numeric parse succeeds,
and finally try the whole remainder as a raw integer. `none` is Go's
non-nil error. -/
def parseSizeString (s0 : Str) : Option Int :=
  let s := goTrimSpace s0
  let bRes : Option Int × Str :=
    if goHasSuffix s ("B".toList) && !goHasSuffix s ("KB".toList)
        && !goHasSuffix s ("MB".toList) && !goHasSuffix s ("GB".toList)
        && !goHasSuffix s ("TB".toList) then
      let t := goTrimSuffix s ("B".toList)
      (goParseInt t, t)
    else (none, s)
  match bRes with
  | (some v, _) => some v
  | (none, s1) =>
    match sizeUnitStep ("KB".toList) 1024 s1 with
    | (some v, _) => some v
    | (none, s2) =>
      match sizeUnitStep ("MB".toList) (1024 * 1024) s2 with
      | (some v, _) => some v
      | (none, s3) =>
        match sizeUnitStep ("GB".toList) (1024 * 1024 * 1024) s3 with
        | (some v, _) => some v
        | (none, s4) =>
          match sizeUnitStep ("TB".toList) (1024 * 1024 * 1024 * 1024) s4 with
          | (some v, _) => some v
          | (none, s5) => goParseInt s5

/-! ## `constants.FormatFileSize` (internal/constants/validation_rules.go) -/

/-- The decimal digits of a natural number, with structural fuel (the
fuel suffices whenever it is at least `n`, and the fuel-exhausted case is
only reached at `n = 0`, where it is the right answer). -/
def natToCharsAux : Nat → Nat → Str
  | 0, n => [Char.ofNat (48 + n % 10)]
  | fuel + 1, n =>
      if n < 10 then [Char.ofNat (48 + n)]
      else natToCharsAux fuel (n / 10) ++ [Char.ofNat (48 + n % 10)]

/-- The decimal digits of a natural number. -/
def natToChars (n : Nat) : Str := natToCharsAux n n

/-- Go `fmt` rendering of an `int64` with `%d`. -/
def intToChars (i : Int) : Str :=
  if i < 0 then '-' :: natToChars (-i).toNat else natToChars i.toNat

/-- The `div`/`exp` loop of `FormatFileSize` with structural fuel (the
fuel suffices whenever it is at least `m`; the fuel-exhausted case is only
reached at `m = 0`, where stopping is the right answer). -/
def fmtLoopAux : Nat → Nat → Nat → Nat → Nat × Nat
  | 0, _, div, exp => (div, exp)
  | fuel + 1, m, div, exp =>
      if 1024 ≤ m then fmtLoopAux fuel (m / 1024) (div * 1024) (exp + 1)
      else (div, exp)

/-- The `div`/`exp` loop of `FormatFileSize`: starting from
`m = bytes / 1024`, `div = 1024`, `exp = 0`, multiply `div` by 1024 and
bump `exp` while `m` (divided down) is still at least 1024. -/
def fmtLoop (m div exp : Nat) : Nat × Nat := fmtLoopAux m m div exp

/-- Go `fmt` rendering of `float64(n)/float64(d)` with `%.1f`, modelled on
the exact rational with rounding to the nearest tenth (half away from
zero); the source's values at issue are exact tenths, where every rounding
convention agrees. -/
def formatOneDec (n d : Nat) : Str :=
  let t := (10 * n + d / 2) / d
  natToChars (t / 10) ++ ('.' :: natToChars (t % 10))

/-- The unit letters `"KMGTPE"` indexed by `exp` in `FormatFileSize`
(an `int64` never reaches past `E`). -/
def unitChars : Str := "KMGTPE".toList

/-- Go `constants.FormatFileSize`: below 1024 bytes, `"%d B"`; otherwise
`"%.1f %cB"` with the unit letter picked by the scale loop. -/
def formatFileSize (bytes : Int) : Str :=
  if bytes < 1024 then intToChars bytes ++ " B".toList
  else
    let m := bytes.toNat
    let (d, exp) := fmtLoop (m / 1024) 1024 0
    formatOneDec m d ++ (' ' :: unitChars.getD exp 'K' :: "B".toList)

/-! ## Configuration (internal/config/config.go) -/

/-- `config.ValidationRule`: a named matching condition plus allow/block
and an optional size override (`maxSize = []` is Go's empty string). -/
structure ValidationRule where
  name : Str
  extensions : List Str
  patterns : List Str
  mimeTypes : List Str
  maxSize : Str
  allow : Bool
deriving DecidableEq, Repr

/-- `config.FileValidationConfig`. -/
structure FileValidationConfig where
  defaultMaxSize : Str
  defaultAction : Str
  strictMimeValidation : Bool
  rules : List ValidationRule
deriving DecidableEq, Repr

/-- `config.GetDefaultMaxFileSize`: parse `defaultMaxSize`, falling back to
10 MiB when the string does not parse. -/
def getDefaultMaxFileSize (c : FileValidationConfig) : Int :=
  match parseSizeString c.defaultMaxSize with
  | none => 10 * 1024 * 1024
  | some v => v

/-- `config.IsDefaultActionBlock`. -/
def isDefaultActionBlock (c : FileValidationConfig) : Bool :=
  goToLower c.defaultAction == "block".toList

/-! ## Glob matching (internal/constants/validation_rules.go) -/

/-- The characters Go `regexp.QuoteMeta` escapes. -/
def regexSpecial (c : Char) : Bool :=
  ("\\.+*?()|[]\x7b\x7d^$".toList).contains c

/-- Go `regexp.QuoteMeta`: backslash-escape every special character. -/
def goQuoteMeta (s : Str) : Str :=
  (s.map fun c => if regexSpecial c then ['\\', c] else [c]).flatten

/-- Helper for `goReplaceAll`: replace non-overlapping occurrences of
`o :: orest` left to right, with structural fuel (each step consumes at
least one character, so fuel equal to the subject's length suffices). -/
def replaceAllAux (o : Char) (orest new : Str) : Nat → Str → Str
  | _, [] => []
  | 0, s => s
  | fuel + 1, c :: rest =>
      if (o :: orest).isPrefixOf (c :: rest) then
        new ++ replaceAllAux o orest new fuel (rest.drop orest.length)
      else c :: replaceAllAux o orest new fuel rest

/-- Go `strings.ReplaceAll` (for a non-empty `old`; the source only
replaces the two-character strings `\*` and `\?`). -/
def goReplaceAll (s old new : Str) : Str :=
  match old with
  | [] => s
  | o :: orest => replaceAllAux o orest new s.length s

/-- `ValidationEngine.globToRegex`: escape the pattern, turn the escaped
glob wildcards `\*` and `\?` into `.*` and `.`, and anchor. -/
def globToRegex (pattern : Str) : Str :=
  let p := goQuoteMeta pattern
  let p := goReplaceAll p ("\\*".toList) (".*".toList)
  let p := goReplaceAll p ("\\?".toList) (".".toList)
  '^' :: p ++ ['$']

/-- Tokens of the regular-expression fragment `globToRegex` emits:
escaped literals, `.` (any character but newline), `.*`, and the two
anchors. -/
inductive RTok where
  | lit : Char → RTok
  | anyOne : RTok
  | anyStar : RTok
  | caret : RTok
  | dollar : RTok
deriving DecidableEq, Repr

/-- Parse the regex string `globToRegex` produced into tokens (`\c` is the
literal `c`; a `*` only ever follows a `.` in that image). -/
def parseRegex : Str → List RTok
  | [] => []
  | '\\' :: c :: rest => .lit c :: parseRegex rest
  | ['\\'] => [.lit '\\']
  | '.' :: '*' :: rest => .anyStar :: parseRegex rest
  | '.' :: rest => .anyOne :: parseRegex rest
  | '^' :: rest => .caret :: parseRegex rest
  | '$' :: rest => .dollar :: parseRegex rest
  | c :: rest => .lit c :: parseRegex rest

/-- Matching of a token list against (a suffix of) the subject, RE2
semantics for this fragment: `.` refuses a newline, `^` matches only at
the start of the text (`atStart`), `$` only at its end, and `.*` consumes
any number of non-newline characters. -/
def matchToks : List RTok → Str → Bool → Bool
  | [], _, _ => true
  | .caret :: ts, s, atStart => atStart && matchToks ts s atStart
  | .dollar :: ts, s, atStart => s.isEmpty && matchToks ts s atStart
  | .lit c :: ts, s, _ =>
      match s with
      | [] => false
      | x :: rest => x == c && matchToks ts rest false
  | .anyOne :: ts, s, _ =>
      match s with
      | [] => false
      | x :: rest => !(x == '\n') && matchToks ts rest false
  | .anyStar :: ts, s, atStart =>
      (List.range (s.length + 1)).any fun k =>
        (s.take k).all (fun c => !(c == '\n')) && matchToks ts (s.drop k) (atStart && k == 0)

/-- Go `regexp.MatchString` search semantics: the pattern may match at any
starting position of the subject. -/
def goRegexSearch (ts : List RTok) : Str → Bool → Bool
  | s, atStart =>
      matchToks ts s atStart ||
        match s with
        | [] => false
        | _ :: rest => goRegexSearch ts rest false

/-- Go `regexp.MatchString` on the fragment `globToRegex` emits. -/
def goRegexMatchString (re s : Str) : Bool :=
  goRegexSearch (parseRegex re) s true

/-- `ValidationEngine.matchesPattern`: convert the glob to a regex and
match. (The Go code returns `false` when the regex fails to compile;
`globToRegex`'s output always compiles, so that path is dead.) -/
def matchesPattern (filename pattern : Str) : Bool :=
  goRegexMatchString (globToRegex pattern) filename

/-! ## The validation engine (internal/constants/validation_rules.go) -/

/-- `ValidationEngine.matchesMimeType`: exact match, or prefix wildcard
when the pattern ends in `/*`. -/
def matchesMimeType (actual pattern : Str) : Bool :=
  if actual == pattern then true
  else if goHasSuffix pattern ("/*".toList) then
    let pre := goTrimSuffix pattern ("/*".toList)
    goHasPrefixStr actual (pre ++ "/".toList)
  else false

/-- `constants.ValidationResult`. -/
structure ValidationResult where
  isAllowed : Bool
  maxSize : Int
  ruleName : Str
  reason : Str
  matchedRule : Option ValidationRule
deriving DecidableEq, Repr

/-- `ValidationEngine.matchesRule`: a rule matches when the extension
case-folds to one of its extensions, or the filename matches one of its
glob patterns, or the MIME type matches one of its MIME patterns. (The Go
code guards each loop with a `len > 0` check, which only skips an empty
loop and is dropped here.) -/
def matchesRule (ext filename mimeType : Str) (rule : ValidationRule) : Bool :=
  rule.extensions.any (fun allowedExt => goEqualFold ext allowedExt) ||
    rule.patterns.any (fun pattern => matchesPattern filename pattern) ||
    rule.mimeTypes.any (fun allowedMime => matchesMimeType mimeType allowedMime)

/-- `ValidationEngine.applyRule`. The result starts with
`IsAllowed = rule.Allow`; the blocked branch sets a reason, the allow
branch checks the rule's own size limit (or the default one) and sets a
reason on failure — without ever assigning `IsAllowed` again. `ext` is a
parameter the Go function never reads. -/
def applyRule (e : FileValidationConfig) (rule : ValidationRule) (fileSize : Int)
    (_ext : Str) : ValidationResult :=
  let result : ValidationResult :=
    { isAllowed := rule.allow, maxSize := 0, ruleName := rule.name,
      reason := [], matchedRule := some rule }
  if !rule.allow then
    { result with reason := "File blocked by rule \'".toList ++ rule.name ++ "\'".toList }
  else if rule.maxSize ≠ [] then
    match parseSizeString rule.maxSize with
    | none =>
        { result with reason :=
            "Invalid size limit in rule \'".toList ++ rule.name ++ "\': ".toList
              ++ rule.maxSize }
    | some maxSize =>
        if fileSize > maxSize then
          { result with reason :=
              "File size ".toList ++ formatFileSize fileSize
                ++ " exceeds limit ".toList ++ rule.maxSize
                ++ " set by rule \'".toList ++ rule.name ++ "\'".toList }
        else { result with maxSize := maxSize }
  else
    let dm := getDefaultMaxFileSize e
    if fileSize > dm then
      { result with maxSize := dm, reason :=
          "File size ".toList ++ formatFileSize fileSize
            ++ " exceeds default limit ".toList ++ formatFileSize dm }
    else { result with maxSize := dm }

/-- `ValidationEngine.applyDefaultAction`: no rule matched. `IsAllowed`
is the negation of the block default; the allow branch overwrites the
reason with a size complaint when the file exceeds the default limit, but
(as in `applyRule`) never assigns `IsAllowed` again. `filename` and
`mimeType` are parameters the Go function never reads. -/
def applyDefaultAction (e : FileValidationConfig) (ext _filename _mimeType : Str)
    (fileSize : Int) : ValidationResult :=
  let result : ValidationResult :=
    { isAllowed := !isDefaultActionBlock e, maxSize := getDefaultMaxFileSize e,
      ruleName := "Default Action".toList, reason := [], matchedRule := none }
  if isDefaultActionBlock e then
    { result with reason :=
        "File type .".toList ++ ext
          ++ " not covered by any rules, default action is to block".toList }
  else
    let allowed :=
      { result with reason :=
          "File type .".toList ++ ext
            ++ " not covered by any rules, default action is to allow".toList }
    if fileSize > result.maxSize then
      { allowed with reason :=
          "File size ".toList ++ formatFileSize fileSize
            ++ " exceeds default limit ".toList ++ formatFileSize result.maxSize }
    else allowed

/-- The extension `ValidateFile` computes: lower-cased `filepath.Ext`,
leading dot stripped when non-empty. -/
def fileExt (filename : Str) : Str :=
  let ext := goToLower (goFilepathExt filename)
  if ext ≠ [] then goTrimPrefixStr ext (".".toList) else ext

/-- The first-match-wins scan over the configured rules. -/
def validateFileAux (e : FileValidationConfig) (ext filename mimeType : Str)
    (fileSize : Int) : List ValidationRule → ValidationResult
  | [] => applyDefaultAction e ext filename mimeType fileSize
  | rule :: rest =>
      if matchesRule ext filename mimeType rule then applyRule e rule fileSize ext
      else validateFileAux e ext filename mimeType fileSize rest

/-- `ValidationEngine.ValidateFile`. -/
def validateFile (e : FileValidationConfig) (filename mimeType : Str)
    (fileSize : Int) : ValidationResult :=
  validateFileAux e (fileExt filename) filename mimeType fileSize e.rules

/-! ## Path and name composition (internal/services/file_service.go) -/

/-- `config.FileNamingConfig`. -/
structure FileNamingConfig where
  strategy : Str
  preserveExtension : Bool
deriving DecidableEq, Repr

/-- `config.StorageOrganizationConfig`. -/
structure StorageOrganizationConfig where
  pattern : Str
  dateFormat : Str
  includeTime : Bool
  naming : FileNamingConfig
deriving DecidableEq, Repr

/-- A clock reading, at the granularity the source's layouts use. -/
structure GoTime where
  year : Nat
  month : Nat
  day : Nat
  hour : Nat
deriving DecidableEq, Repr

/-- Two-digit zero-padded decimal (Go layout tokens `01`, `02`, `15`). -/
def pad2 (n : Nat) : Str := if n < 10 then '0' :: natToChars n else natToChars n

/-- Four-digit zero-padded decimal (Go layout token `2006`). -/
def pad4 (n : Nat) : Str :=
  if n < 10 then "000".toList ++ natToChars n
  else if n < 100 then "00".toList ++ natToChars n
  else if n < 1000 then '0' :: natToChars n
  else natToChars n

/-- Go `time.Time.Format`, restricted to the reference-layout tokens the
repository's layouts use — `2006` (year), `01` (month), `02` (day),
`15` (hour) — with every other character a literal. -/
def goTimeFormat (t : GoTime) : Str → Str
  | '2' :: '0' :: '0' :: '6' :: rest => pad4 t.year ++ goTimeFormat t rest
  | '1' :: '5' :: rest => pad2 t.hour ++ goTimeFormat t rest
  | '0' :: '1' :: rest => pad2 t.month ++ goTimeFormat t rest
  | '0' :: '2' :: rest => pad2 t.day ++ goTimeFormat t rest
  | c :: rest => c :: goTimeFormat t rest
  | [] => []

/-- The `pathParts` list `FileService.GenerateFilePath` builds: a date
segment when the organization pattern contains `"date"` (hour-granular
layout `"2006-01-02-15"` forced when `IncludeTime` is set), then a type
segment when the pattern contains `"type"`. `now` stands for the
`time.Now()` reading. -/
def generateDirParts (org : StorageOrganizationConfig) (now : GoTime)
    (fileType : Str) : List Str :=
  (if goContains org.pattern ("date".toList) then
      [goTimeFormat now (if org.includeTime then "2006-01-02-15".toList else org.dateFormat)]
    else []) ++
    (if goContains org.pattern ("type".toList) then [fileType] else [])

/-- Go `filepath.Join` on the segments at issue: drop empty elements and
interleave `/`. (`filepath.Clean` is a no-op on these segments, which hold
no separators or dot segments.) -/
def filepathJoin (parts : List Str) : Str :=
  ((parts.filter fun p => !p.isEmpty).intersperse ("/".toList)).flatten

/-- The relative storage directory `GenerateFilePath` composes (the
`filePath` it joins under the upload dir, before the generated file name
is appended). -/
def generateFilePathDir (org : StorageOrganizationConfig) (now : GoTime)
    (fileType : Str) : Str :=
  filepathJoin (generateDirParts org now fileType)

/-- `FileService.generateFileName`. Randomness and the clock are passed in:
`uuidStr` stands for the fresh `uuid.NewRandom()` string (its failure
branch is I/O and is not modelled) and `nowUnixNano` for
`time.Now().UnixNano()`. `Except.error` carries the Go error's code. -/
def generateFileName (naming : FileNamingConfig) (originalName : Str)
    (uuidStr : Str) (nowUnixNano : Nat) : Except Str Str :=
  let ext := goFilepathExt originalName
  if naming.strategy == "uuid".toList then
    if naming.preserveExtension then .ok (uuidStr ++ ext) else .ok uuidStr
  else if naming.strategy == "timestamp".toList then
    if naming.preserveExtension then .ok (natToChars nowUnixNano ++ ext)
    else .ok (natToChars nowUnixNano)
  else if naming.strategy == "original".toList then
    if naming.preserveExtension then .ok originalName
    else .ok (goTrimSuffix originalName ext)
  else .error ("INVALID_NAMING_STRATEGY".toList)

/-! ## Content hashing (internal/services/file_service.go) -/

/-- `FileService.CalculateFileHash` as the source ships it: the file is
opened (the open-failure branch is I/O and is not modelled), its contents
are never read, and the constant string `"placeholder_hash"` is returned
for every file. -/
def calculateFileHash (_contents : Str) : Str := "placeholder_hash".toList

/-! ## Concrete configurations used by the claim theorems -/

/-- Scenario A's rule: images up to 5MB, allowed. -/
def imagesRule : ValidationRule :=
  { name := "images".toList, extensions := ["jpg".toList, "png".toList],
    patterns := [], mimeTypes := [], maxSize := "5MB".toList, allow := true }

/-- Scenario A's configuration: the images rule with a blocking default. -/
def cfgImages : FileValidationConfig :=
  { defaultMaxSize := "10MB".toList, defaultAction := "block".toList,
    strictMimeValidation := false, rules := [imagesRule] }

/-- A configuration with no rules and a permissive default of 1KB. -/
def cfgAllowDefault : FileValidationConfig :=
  { defaultMaxSize := "1KB".toList, defaultAction := "allow".toList,
    strictMimeValidation := false, rules := [] }

/-- An allow rule whose size limit does not parse. -/
def badSizeRule : ValidationRule :=
  { name := "docs".toList, extensions := ["pdf".toList], patterns := [],
    mimeTypes := [], maxSize := "banana".toList, allow := true }

/-- A configuration whose only rule carries the unparsable size limit. -/
def cfgBadRule : FileValidationConfig :=
  { defaultMaxSize := "10MB".toList, defaultAction := "block".toList,
    strictMimeValidation := false, rules := [badSizeRule] }

/-- A configuration whose default size limit does not parse. -/
def cfgUnparsableDefault : FileValidationConfig :=
  { defaultMaxSize := "lots".toList, defaultAction := "allow".toList,
    strictMimeValidation := false, rules := [] }

/-- A rule with no extensions, patterns or MIME types: the spec's "dead
rule". -/
def deadRule : ValidationRule :=
  { name := "dead".toList, extensions := [], patterns := [], mimeTypes := [],
    maxSize := [], allow := true }

/-- Scenario B's organization config: `"date/type"` pattern, day-granular
date format, no time component. -/
def orgDateType : StorageOrganizationConfig :=
  { pattern := "date/type".toList, dateFormat := "2006-01-02".toList,
    includeTime := false,
    naming := { strategy := "uuid".toList, preserveExtension := true } }

/-- Scenario B's fixed clock reading: 2024-01-15 (hour 10 for the
hour-granular variant). -/
def clockB : GoTime := ⟨2024, 1, 15, 10⟩

/-! ## Helper lemmas -/

/-- A list is a `isPrefixOf` of itself followed by anything. -/
theorem isPrefixOf_self_append (l t : Str) : l.isPrefixOf (l ++ t) = true := by
  rw [List.isPrefixOf_iff_prefix]
  exact List.prefix_append l t

/-- A suffix glued on the right is seen by `goHasSuffix`. -/
theorem goHasSuffix_append (l suf : Str) : goHasSuffix (l ++ suf) suf = true := by
  unfold goHasSuffix
  rw [List.reverse_append]
  exact isPrefixOf_self_append _ _

/-- `goTrimSuffix` removes a suffix glued on the right. -/
theorem goTrimSuffix_append (l suf : Str) : goTrimSuffix (l ++ suf) suf = l := by
  unfold goTrimSuffix
  rw [goHasSuffix_append]
  simp [List.length_append]

/-- `goHasSuffix` against a one-character suffix looks at the last
character. -/
theorem goHasSuffix_snoc_one (l : Str) (c b : Char) :
    goHasSuffix (l ++ [c]) [b] = (b == c) := by
  simp [goHasSuffix, List.reverse_append, List.isPrefixOf]

/-- `goHasSuffix` against a two-character suffix peels the last character
first. -/
theorem goHasSuffix_snoc_two (l : Str) (c b1 b2 : Char) :
    goHasSuffix (l ++ [c]) [b1, b2] = ((b2 == c) && goHasSuffix l [b1]) := by
  simp [goHasSuffix, List.reverse_append, List.isPrefixOf]

/-- `goTrimSuffix` by the empty suffix is the identity. -/
theorem goTrimSuffix_nil (l : Str) : goTrimSuffix l [] = l := by
  simp [goTrimSuffix, goHasSuffix, List.isPrefixOf]

/-- Dropping whitespace from both ends changes nothing when the first and
last characters are not whitespace. -/
theorem goTrimSpace_sandwich (c d : Char) (mid : Str)
    (hc : isGoSpace c = false) (hd : isGoSpace d = false) :
    goTrimSpace (c :: (mid ++ [d])) = c :: (mid ++ [d])  := by
  unfold goTrimSpace
  rw [List.dropWhile_cons, hc]
  simp only [Bool.false_eq_true, if_false, List.reverse_cons, List.reverse_append,
    List.reverse_cons, List.reverse_nil, List.nil_append, List.cons_append,
    List.dropWhile_cons, hd, Bool.false_eq_true, if_false]
  simp

/-- The ten decimal digit characters. -/
def digitChars : Str := ['0', '1', '2', '3', '4', '5', '6', '7', '8', '9']

/-- Every character `natToCharsAux` emits is a decimal digit. -/
theorem natToCharsAux_digits :
    ∀ fuel n c, c ∈ natToCharsAux fuel n → c ∈ digitChars := by
  intro fuel
  induction fuel with
  | zero =>
      intro n c hc
      simp only [natToCharsAux, List.mem_singleton] at hc
      subst hc
      have h : n % 10 < 10 := Nat.mod_lt _ (by omega)
      interval_cases h' : n % 10 <;> decide
  | succ fuel ih =>
      intro n c hc
      simp only [natToCharsAux] at hc
      split at hc
      · next h =>
          simp only [List.mem_singleton] at hc
          subst hc
          interval_cases n <;> decide
      · next h =>
          rcases List.mem_append.mp hc with h1 | h1
          · exact ih _ _ h1
          · simp only [List.mem_singleton] at h1
            subst h1
            have h2 : n % 10 < 10 := Nat.mod_lt _ (by omega)
            interval_cases h' : n % 10 <;> decide

/-- Every character of `natToChars n` is a decimal digit. -/
theorem natToChars_digits (n : Nat) : ∀ c ∈ natToChars n, c ∈ digitChars :=
  fun c hc => natToCharsAux_digits n n c hc

/-- `natToCharsAux` never returns the empty string. -/
theorem natToCharsAux_ne_nil : ∀ fuel n, natToCharsAux fuel n ≠ [] := by
  intro fuel n
  cases fuel with
  | zero => simp [natToCharsAux]
  | succ fuel => simp only [natToCharsAux]; split <;> simp

/-- `natToChars` never returns the empty string. -/
theorem natToChars_ne_nil (n : Nat) : natToChars n ≠ [] := natToCharsAux_ne_nil n n

/-- A digit character is not Go whitespace. -/
theorem digit_not_space {c : Char} (h : c ∈ digitChars) : isGoSpace c = false := by
  simp only [digitChars, List.mem_cons, List.not_mem_nil, or_false] at h
  rcases h with h | h | h | h | h | h | h | h | h | h <;> subst h <;> decide

/-- A digit character passes `isDigitCh`. -/
theorem digit_isDigit {c : Char} (h : c ∈ digitChars) : isDigitCh c = true := by
  simp only [digitChars, List.mem_cons, List.not_mem_nil, or_false] at h
  rcases h with h | h | h | h | h | h | h | h | h | h <;> subst h <;> decide

/-- `goParseInt` fails whenever the string holds a character that is
neither a digit nor a sign. -/
theorem goParseInt_none_of_mem {l : Str} {c : Char} (hc : c ∈ l)
    (h1 : isDigitCh c = false) (h2 : c ≠ '+') (h3 : c ≠ '-') :
    goParseInt l = none := by
  unfold goParseInt
  rcases l with _ | ⟨x, r⟩
  · cases hc
  · simp only [reduceCtorEq, if_false]
    set ds := if (((x :: r).head? == some '-') || ((x :: r).head? == some '+')) = true
        then (x :: r).tail else x :: r with hds
    have hmem : c ∈ ds := by
      rw [hds]
      rcases List.mem_cons.mp hc with h | h
      · subst h
        have e2 : ((c == '-') : Bool) = false := by simp [h3]
        have e3 : ((c == '+') : Bool) = false := by simp [h2]
        simp [e2, e3]
      · split <;> simp [h]
    have hall : ds.all isDigitCh = false := by
      by_contra hcon
      rw [Bool.not_eq_false] at hcon
      have := List.all_eq_true.mp hcon c hmem
      rw [h1] at this
      cases this
    split
    · rfl
    · rw [hall]
      simp

/-- The head of a non-trivial `dropWhile` result fails the predicate. -/
theorem dropWhile_head_false {p : Char → Bool} :
    ∀ {l : Str} {x : Char} {xs : Str}, List.dropWhile p l = x :: xs → p x = false := by
  intro l
  induction l with
  | nil => intro x xs h; cases h
  | cons a as ih =>
      intro x xs h
      rw [List.dropWhile_cons] at h
      split at h
      · exact ih h
      · next hpa =>
          cases h
          simpa using hpa

/-- `goParseFloat` fails whenever the string holds a character that is
none of a digit, the decimal dot or a sign. -/
theorem goParseFloat_none_of_mem {l : Str} {c : Char} (hc : c ∈ l)
    (h1 : isDigitCh c = false) (hdot : c ≠ '.') (h2 : c ≠ '+') (h3 : c ≠ '-') :
    goParseFloat l = none := by
  unfold goParseFloat
  rcases l with _ | ⟨x, r⟩
  · cases hc
  · simp only [reduceCtorEq, if_false]
    have hmem : c ∈ if (((x :: r).head? == some '-') || ((x :: r).head? == some '+')) = true
        then (x :: r).tail else x :: r := by
      rcases List.mem_cons.mp hc with h | h
      · subst h
        have : ((c == '-') : Bool) = false := by simp [h3]
        have : ((c == '+') : Bool) = false := by simp [h2]
        simp_all
      · split <;> simp [h]
    set ds := if (((x :: r).head? == some '-') || ((x :: r).head? == some '+')) = true
        then (x :: r).tail else x :: r with hds
    have hsplit := List.takeWhile_append_dropWhile (fun c => c ≠ '.') ds
    rcases List.mem_append.mp (hsplit ▸ hmem) with hip | hrest
    · have hall : (ds.takeWhile fun c => c ≠ '.').all isDigitCh = false := by
        by_contra hcon
        rw [Bool.not_eq_false] at hcon
        have := List.all_eq_true.mp hcon c hip
        rw [h1] at this
        cases this
      rw [hall]
      simp
    · split
      · next hip =>
          rcases hd : ds.dropWhile (fun c => c ≠ '.') with _ | ⟨r0, fpart⟩
          · rw [hd] at hrest; cases hrest
          · have hr0 : r0 = '.' := by
              have := dropWhile_head_false hd
              simpa using this
            have hcf : c ∈ fpart := by
              rw [hd] at hrest
              rcases List.mem_cons.mp hrest with h | h
              · exact absurd (h.trans hr0) hdot
              · exact h
            have hall : fpart.all isDigitCh = false := by
              by_contra hcon
              rw [Bool.not_eq_false] at hcon
              have := List.all_eq_true.mp hcon c hcf
              rw [h1] at this
              cases this
            simp [hall]
      · rfl

/-- `filepathExtAux` finds no extension when no dot is present. -/
theorem filepathExtAux_no_dot :
    ∀ (l acc : Str), '.' ∉ l → filepathExtAux l acc = [] := by
  intro l
  induction l with
  | nil => intro acc _; rfl
  | cons c cs ih =>
      intro acc h
      have hc : c ≠ '.' := fun e => h (e ▸ List.mem_cons_self c cs)
      by_cases hsl : c = '/'
      · simp [filepathExtAux, hsl]
      · simp only [filepathExtAux, hsl, hc, if_false]
        exact ih _ fun hm => h (List.mem_cons_of_mem _ hm)

/-- `filepathExtAux` walks over dot-free, separator-free characters and
stops at the first dot, returning it with everything walked over so far. -/
theorem filepathExtAux_finds_dot :
    ∀ (l rest acc : Str), (∀ c ∈ l, c ≠ '.' ∧ c ≠ '/') →
      filepathExtAux (l ++ '.' :: rest) acc = '.' :: (l.reverse ++ acc) := by
  intro l
  induction l with
  | nil => intro rest acc _; simp [filepathExtAux]
  | cons c cs ih =>
      intro rest acc h
      obtain ⟨hd, hs⟩ := h c (List.mem_cons_self _ _)
      simp only [List.cons_append, filepathExtAux, hd, hs, if_false]
      show filepathExtAux (cs ++ '.' :: rest) (c :: acc) = _
      rw [ih rest (c :: acc) fun x hx => h x (List.mem_cons_of_mem _ hx)]
      simp

/-- `goFilepathExt` of a name whose last dot is followed by a dot-free,
separator-free tail is that dot with the tail. -/
theorem goFilepathExt_split (pre post : Str) (h : ∀ c ∈ post, c ≠ '.' ∧ c ≠ '/') :
    goFilepathExt (pre ++ '.' :: post) = '.' :: post := by
  unfold goFilepathExt
  rw [show (pre ++ '.' :: post).reverse = post.reverse ++ '.' :: pre.reverse by simp]
  rw [filepathExtAux_finds_dot _ _ _ fun c hc => h c (List.mem_reverse.mp hc)]
  simp

/-- `goFilepathExt` of a dot-free name is empty. -/
theorem goFilepathExt_no_dot (name : Str) (h : '.' ∉ name) : goFilepathExt name = [] := by
  unfold goFilepathExt
  exact filepathExtAux_no_dot _ _ fun hm => h (List.mem_reverse.mp hm)

/-- Every branch of `applyRule` reports the matched rule's name. -/
theorem applyRule_ruleName (e : FileValidationConfig) (r : ValidationRule)
    (fileSize : Int) (ext : Str) : (applyRule e r fileSize ext).ruleName = r.name := by
  simp only [applyRule]
  repeat' split
  all_goals rfl

/-- Every branch of `applyRule` records the matched rule. -/
theorem applyRule_matchedRule (e : FileValidationConfig) (r : ValidationRule)
    (fileSize : Int) (ext : Str) : (applyRule e r fileSize ext).matchedRule = some r := by
  simp only [applyRule]
  repeat' split
  all_goals rfl

/-- The rule scan returns `applyRule` of the first matching rule. -/
theorem validateFileAux_first_match (e : FileValidationConfig)
    (ext filename mimeType : Str) (fileSize : Int)
    (pre post : List ValidationRule) (r : ValidationRule)
    (hpre : ∀ r' ∈ pre, matchesRule ext filename mimeType r' = false)
    (hr : matchesRule ext filename mimeType r = true) :
    validateFileAux e ext filename mimeType fileSize (pre ++ r :: post)
      = applyRule e r fileSize ext := by
  induction pre with
  | nil => simp [validateFileAux, hr]
  | cons p ps ih =>
      have hp := hpre p (List.mem_cons_self _ _)
      simp only [List.cons_append, validateFileAux, hp, Bool.false_eq_true, if_false]
      exact ih fun r' h => hpre r' (List.mem_cons_of_mem _ h)

/-- A character outside a suffix survives `goTrimSuffix` by that suffix. -/
theorem mem_goTrimSuffix_of_mem {s suf : Str} {c : Char} (hc : c ∈ s) (hns : c ∉ suf) :
    c ∈ goTrimSuffix s suf := by
  unfold goTrimSuffix
  split
  · next h =>
      obtain ⟨t, ht⟩ := List.isPrefixOf_iff_prefix.mp h
      have hs : s = t.reverse ++ suf := by
        have h2 := congrArg List.reverse ht
        simpa using h2.symm
      have hlen : s.length - suf.length = t.reverse.length := by
        rw [hs]; simp [List.length_append]
      rw [hlen, hs, List.take_left]
      rw [hs] at hc
      rcases List.mem_append.mp hc with h1 | h1
      · exact h1
      · exact absurd h1 hns
  · exact hc

/-- A `ParseSizeString` unit branch cannot succeed on a string holding a
space, and the trimmed string it hands on still holds the space. -/
theorem sizeUnitStep_space (suf : Str) (mult : Nat) (s : Str) (hs : ' ' ∈ s)
    (hsuf : ' ' ∉ suf) :
    (sizeUnitStep suf mult s).1 = none ∧ ' ' ∈ (sizeUnitStep suf mult s).2 := by
  unfold sizeUnitStep
  by_cases h : goHasSuffix s suf = true
  · rw [if_pos h]
    have ht : ' ' ∈ goTrimSuffix s suf := mem_goTrimSuffix_of_mem hs hsuf
    have hf : goParseFloat (goTrimSuffix s suf) = none :=
      goParseFloat_none_of_mem ht (by decide) (by decide) (by decide) (by decide)
    simp only [hf]
    exact ⟨trivial, ht⟩
  · rw [if_neg h]
    exact ⟨rfl, hs⟩

/-- `ParseSizeString` errors on every input whose space-trimmed form still
holds a space: the unit suffixes are space-free, so every string the
cascade hands to a numeric parse still holds the space, and both numeric
parsers reject it. -/
theorem parseSizeString_none_of_space {s0 : Str} (hsp : ' ' ∈ goTrimSpace s0) :
    parseSizeString s0 = none := by
  simp only [parseSizeString]
  split
  · next v snd heq =>
      exfalso
      split at heq
      · have ht : ' ' ∈ goTrimSuffix (goTrimSpace s0) ("B".toList) :=
          mem_goTrimSuffix_of_mem hsp (by decide)
        rw [goParseInt_none_of_mem ht (by decide) (by decide) (by decide)] at heq
        simp at heq
      · simp at heq
  · next s1 heq =>
      have hs1 : ' ' ∈ s1 := by
        split at heq
        · have ht : ' ' ∈ goTrimSuffix (goTrimSpace s0) ("B".toList) :=
            mem_goTrimSuffix_of_mem hsp (by decide)
          injection heq with h1 h2
          rw [← h2]
          exact ht
        · injection heq with h1 h2
          rw [← h2]
          exact hsp
      rcases hKeq : sizeUnitStep ("KB".toList) 1024 s1 with ⟨rK, sK⟩
      have hK := sizeUnitStep_space ("KB".toList) 1024 s1 hs1 (by decide)
      rw [hKeq] at hK
      have hrK : rK = none := hK.1
      subst hrK
      have hsK : ' ' ∈ sK := hK.2
      simp only []
      rcases hMeq : sizeUnitStep ("MB".toList) (1024 * 1024) sK with ⟨rM, sM⟩
      have hM := sizeUnitStep_space ("MB".toList) (1024 * 1024) sK hsK (by decide)
      rw [hMeq] at hM
      have hrM : rM = none := hM.1
      subst hrM
      have hsM : ' ' ∈ sM := hM.2
      simp only []
      rcases hGeq : sizeUnitStep ("GB".toList) (1024 * 1024 * 1024) sM with ⟨rG, sG⟩
      have hG := sizeUnitStep_space ("GB".toList) (1024 * 1024 * 1024) sM hsM (by decide)
      rw [hGeq] at hG
      have hrG : rG = none := hG.1
      subst hrG
      have hsG : ' ' ∈ sG := hG.2
      simp only []
      rcases hTeq : sizeUnitStep ("TB".toList) (1024 * 1024 * 1024 * 1024) sG with ⟨rT, sT⟩
      have hT := sizeUnitStep_space ("TB".toList) (1024 * 1024 * 1024 * 1024) sG hsG (by decide)
      rw [hTeq] at hT
      have hrT : rT = none := hT.1
      subst hrT
      have hsT : ' ' ∈ sT := hT.2
      simp only []
      exact goParseInt_none_of_mem hsT (by decide) (by decide) (by decide)

/-- Every `FormatFileSize` output is a digit, then a middle part holding
the space before the unit, then the final `B`. -/
theorem formatFileSize_shape (n : Int) (h : 0 ≤ n) :
    ∃ (c : Char) (mid : Str),
      formatFileSize n = (c :: mid) ++ ['B'] ∧ c ∈ digitChars ∧ ' ' ∈ mid := by
  by_cases hb : n < 1024
  · have hval : formatFileSize n = natToChars n.toNat ++ [' ', 'B'] := by
      unfold formatFileSize intToChars
      rw [if_pos hb, if_neg (by omega : ¬n < 0)]
      rfl
    rcases hnc : natToChars n.toNat with _ | ⟨d0, ds⟩
    · exact absurd hnc (natToChars_ne_nil _)
    · refine ⟨d0, ds ++ [' '], ?_, ?_, by simp⟩
      · rw [hval, hnc]; simp
      · exact natToChars_digits _ d0 (by rw [hnc]; exact List.mem_cons_self _ _)
  · rcases hfl : fmtLoop (n.toNat / 1024) 1024 0 with ⟨d, exp⟩
    have hval : formatFileSize n
        = formatOneDec n.toNat d ++ (' ' :: unitChars.getD exp 'K' :: ['B']) := by
      unfold formatFileSize
      rw [if_neg hb]
      simp only []
      rw [hfl]
      rfl
    have hone : formatOneDec n.toNat d
        = natToChars ((10 * n.toNat + d / 2) / d / 10)
            ++ ('.' :: natToChars ((10 * n.toNat + d / 2) / d % 10)) := rfl
    rcases hnc : natToChars ((10 * n.toNat + d / 2) / d / 10) with _ | ⟨f0, fs⟩
    · exact absurd hnc (natToChars_ne_nil _)
    · refine ⟨f0,
        fs ++ ('.' :: natToChars ((10 * n.toNat + d / 2) / d % 10))
          ++ (' ' :: [unitChars.getD exp 'K']), ?_, ?_, by simp⟩
      · rw [hval, hone, hnc]
        simp
      · exact natToChars_digits _ f0 (by rw [hnc]; exact List.mem_cons_self _ _)

/-- The literal tail `\.pdf$` of the compiled `*.pdf` regex matches
exactly the string `".pdf"`. -/
theorem matchToks_lit_pdf (u : Str) (b : Bool) :
    matchToks [.lit '.', .lit 'p', .lit 'd', .lit 'f', .dollar] u b = true
      ↔ u = ".pdf".toList := by
  constructor
  · intro h
    rcases u with _ | ⟨c1, u⟩
    · simp [matchToks] at h
    rcases u with _ | ⟨c2, u⟩
    · simp [matchToks] at h
    rcases u with _ | ⟨c3, u⟩
    · simp [matchToks] at h
    rcases u with _ | ⟨c4, u⟩
    · simp [matchToks] at h
    simp only [matchToks, Bool.and_eq_true, beq_iff_eq, List.isEmpty_iff] at h
    obtain ⟨h1, h2, h3, h4, h5, -⟩ := h
    subst h1 h2 h3 h4 h5
    rfl
  · rintro rfl
    revert b
    decide

/-- A search for a caret-anchored pattern away from the start fails. -/
theorem search_caret_false (ts : List RTok) :
    ∀ s : Str, goRegexSearch (.caret :: ts) s false = false := by
  intro s
  induction s with
  | nil => simp [goRegexSearch, matchToks]
  | cons c cs ih => simp [goRegexSearch, matchToks, ih]

/-- A search for a caret-anchored pattern reduces to a match at the
start. -/
theorem search_with_caret (ts : List RTok) (s : Str) :
    goRegexSearch (.caret :: ts) s true = matchToks (.caret :: ts) s true := by
  rcases s with _ | ⟨c, cs⟩
  · simp [goRegexSearch]
  · simp [goRegexSearch, search_caret_false]

/-- A match at the current position makes the search succeed. -/
theorem search_of_match {ts : List RTok} {s : Str} {b : Bool}
    (h : matchToks ts s b = true) : goRegexSearch ts s b = true := by
  rcases s with _ | ⟨c, cs⟩ <;> simp [goRegexSearch, h]

/-! ## Claim theorems -/

/-- C1: `applyRule` never assigns `IsAllowed` after initialising it from
`rule.Allow`, so a 6MB `photo.jpg` matched by the allow rule with the 5MB
limit comes back with the size-exceeded reason but `isAllowed = true`
(the claim — and the reason string itself — say the file is rejected);
within the limit the rule behaves as specified. -/
theorem c1_oversized_file_matched_by_allow_rule_is_still_allowed :
    (validateFile cfgImages ("photo.jpg".toList) ("image/jpeg".toList) 6291456).isAllowed
        = true ∧
      (validateFile cfgImages ("photo.jpg".toList) ("image/jpeg".toList) 6291456).reason
        = "File size 6.0 MB exceeds limit 5MB set by rule \'images\'".toList ∧
      (validateFile cfgImages ("photo.jpg".toList) ("image/jpeg".toList) 4194304).isAllowed
        = true ∧
      (validateFile cfgImages ("photo.jpg".toList) ("image/jpeg".toList) 4194304).maxSize
        = 5242880 := by
  refine ⟨by decide, by decide, by decide, by decide⟩

/-- C2: under a permissive default (`defaultAction = allow`, default limit
1KB) a 2048-byte file matched by no rule keeps `isAllowed = true` even
though its size exceeds the default limit — only the reason records the
excess (the claim says the file is rejected); a file within the limit is
allowed with the default limit as its max size. -/
theorem c2_oversized_file_under_permissive_default_is_still_allowed :
    (validateFile cfgAllowDefault ("a.bin".toList) ("application/octet-stream".toList)
          2048).isAllowed = true ∧
      (validateFile cfgAllowDefault ("a.bin".toList) ("application/octet-stream".toList)
          2048).reason = "File size 2.0 KB exceeds default limit 1.0 KB".toList ∧
      (validateFile cfgAllowDefault ("a.bin".toList) ("application/octet-stream".toList)
          512).isAllowed = true ∧
      (validateFile cfgAllowDefault ("a.bin".toList) ("application/octet-stream".toList)
          512).maxSize = 1024 := by
  refine ⟨by decide, by decide, by decide, by decide⟩

/-- C3: `CalculateFileHash` returns the constant `"placeholder_hash"` for
every file, so two files with different bytes get the same "digest" and
the result is not a function of the content (the claim — and the source's
own TODO — call for a real content digest). -/
theorem c3_content_hash_is_a_constant_not_a_digest :
    calculateFileHash ("a".toList) = calculateFileHash ("b".toList) ∧
      calculateFileHash ("a".toList) = "placeholder_hash".toList :=
  ⟨rfl, rfl⟩

/-- C4 (counterexample): the round trip fails already at 0 bytes —
`FormatFileSize 0 = "0 B"` and `ParseSizeString` returns an error on it,
against the claim that the round trip always parses. -/
theorem c4_round_trip_fails_at_zero :
    parseSizeString (formatFileSize 0) = none := by decide

/-- C5: a matched allow rule whose `maxSize` does not parse produces the
diagnostic reason naming the rule without panicking, but leaves
`isAllowed = true`, so the file is allowed rather than rejected (the claim
says it is reported not-allowed). -/
theorem c5_unparsable_max_size_on_matched_rule_allows_the_file :
    (validateFile cfgBadRule ("report.pdf".toList) ("application/pdf".toList) 1).isAllowed
        = true ∧
      (validateFile cfgBadRule ("report.pdf".toList) ("application/pdf".toList) 1).reason
        = "Invalid size limit in rule \'docs\': banana".toList := by
  refine ⟨by decide, by decide⟩

/-- C6: first-match-wins — when every rule before `r` in the configured
order fails to match and `r` matches, `ValidateFile`'s result is exactly
`applyRule` of `r` (so its verdict, `ruleName` and `matchedRule` reflect
`r` and never a later rule); and a rule with none of extensions, patterns
or MIME types populated matches nothing. -/
theorem c6_first_match_wins_and_dead_rule_never_matches :
    (∀ (e : FileValidationConfig) (pre post : List ValidationRule) (r : ValidationRule)
        (filename mimeType : Str) (fileSize : Int),
        e.rules = pre ++ r :: post →
        (∀ r' ∈ pre, matchesRule (fileExt filename) filename mimeType r' = false) →
        matchesRule (fileExt filename) filename mimeType r = true →
        validateFile e filename mimeType fileSize
            = applyRule e r fileSize (fileExt filename) ∧
          (validateFile e filename mimeType fileSize).ruleName = r.name ∧
          (validateFile e filename mimeType fileSize).matchedRule = some r) ∧
      ∀ (ext filename mimeType : Str) (r : ValidationRule),
        r.extensions = [] → r.patterns = [] → r.mimeTypes = [] →
        matchesRule ext filename mimeType r = false := by
  constructor
  · intro e pre post r filename mimeType fileSize hrules hpre hr
    have hmain : validateFile e filename mimeType fileSize
        = applyRule e r fileSize (fileExt filename) := by
      unfold validateFile
      rw [hrules]
      exact validateFileAux_first_match e _ filename mimeType fileSize pre post r hpre hr
    exact ⟨hmain, by rw [hmain, applyRule_ruleName], by rw [hmain, applyRule_matchedRule]⟩
  · intro ext filename mimeType r h1 h2 h3
    simp [matchesRule, h1, h2, h3]

/-- C6 witness: the single configured rule matches `photo.jpg` first, and
the all-empty dead rule matches nothing. -/
theorem c6_witness :
    validateFile cfgImages ("photo.jpg".toList) ("image/jpeg".toList) 100
        = applyRule cfgImages imagesRule 100 (fileExt ("photo.jpg".toList)) ∧
      matchesRule ("jpg".toList) ("photo.jpg".toList) ("image/jpeg".toList) deadRule
        = false :=
  ⟨(c6_first_match_wins_and_dead_rule_never_matches.1 cfgImages [] [] imagesRule
      ("photo.jpg".toList) ("image/jpeg".toList) 100 rfl (by simp) (by decide)).1,
    c6_first_match_wins_and_dead_rule_never_matches.2 ("jpg".toList)
      ("photo.jpg".toList) ("image/jpeg".toList) deadRule rfl rfl rfl⟩

/-- C8: the composed directory carries a date segment iff the pattern
contains `"date"` and a type segment iff it contains `"type"`, date before
type, empty when neither; scenario B composes `"2024-01-15/pdf"`, and with
the include-time flag the date segment becomes hour-granular. -/
theorem c8_directory_composition_tokens_and_scenario :
    (∀ (org : StorageOrganizationConfig) (now : GoTime) (fileType : Str),
        goContains org.pattern ("date".toList) = true →
        goContains org.pattern ("type".toList) = true →
        generateDirParts org now fileType
          = [goTimeFormat now
              (if org.includeTime then "2006-01-02-15".toList else org.dateFormat),
             fileType]) ∧
      (∀ (org : StorageOrganizationConfig) (now : GoTime) (fileType : Str),
        goContains org.pattern ("date".toList) = true →
        goContains org.pattern ("type".toList) = false →
        generateDirParts org now fileType
          = [goTimeFormat now
              (if org.includeTime then "2006-01-02-15".toList else org.dateFormat)]) ∧
      (∀ (org : StorageOrganizationConfig) (now : GoTime) (fileType : Str),
        goContains org.pattern ("date".toList) = false →
        goContains org.pattern ("type".toList) = true →
        generateDirParts org now fileType = [fileType]) ∧
      (∀ (org : StorageOrganizationConfig) (now : GoTime) (fileType : Str),
        goContains org.pattern ("date".toList) = false →
        goContains org.pattern ("type".toList) = false →
        generateFilePathDir org now fileType = []) ∧
      generateFilePathDir orgDateType clockB ("pdf".toList) = "2024-01-15/pdf".toList ∧
      generateFilePathDir { orgDateType with includeTime := true } clockB ("pdf".toList)
        = "2024-01-15-10/pdf".toList := by
  refine ⟨?_, ?_, ?_, ?_, by decide, by decide⟩
  · intro org now fileType h1 h2
    simp [generateDirParts,
      show goContains org.pattern ['d', 'a', 't', 'e'] = true from h1,
      show goContains org.pattern ['t', 'y', 'p', 'e'] = true from h2]
  · intro org now fileType h1 h2
    simp [generateDirParts,
      show goContains org.pattern ['d', 'a', 't', 'e'] = true from h1,
      show goContains org.pattern ['t', 'y', 'p', 'e'] = false from h2]
  · intro org now fileType h1 h2
    simp [generateDirParts,
      show goContains org.pattern ['d', 'a', 't', 'e'] = false from h1,
      show goContains org.pattern ['t', 'y', 'p', 'e'] = true from h2]
  · intro org now fileType h1 h2
    simp [generateFilePathDir, generateDirParts, filepathJoin,
      show goContains org.pattern ['d', 'a', 't', 'e'] = false from h1,
      show goContains org.pattern ['t', 'y', 'p', 'e'] = false from h2]

/-- C8 witness: scenario B's pattern contains both tokens and the parts
come out date first, type second. -/
theorem c8_witness :
    goContains orgDateType.pattern ("date".toList) = true ∧
      goContains orgDateType.pattern ("type".toList) = true ∧
      generateDirParts orgDateType clockB ("pdf".toList)
        = ["2024-01-15".toList, "pdf".toList] :=
  ⟨by decide, by decide,
    (c8_directory_composition_tokens_and_scenario.1 orgDateType clockB ("pdf".toList)
        (by decide) (by decide)).trans (by decide)⟩

/-- C9: the naming strategies are a closed set — any strategy outside
{uuid, timestamp, original} yields the configuration error and no name;
`original` without extension preservation strips the suffix from the last
dot; and a dotless original name contributes no extension under any
strategy. -/
theorem c9_naming_strategy_closed_set_and_extension_stripping :
    (∀ (naming : FileNamingConfig) (originalName uuidStr : Str) (nowUnixNano : Nat),
        naming.strategy ≠ "uuid".toList →
        naming.strategy ≠ "timestamp".toList →
        naming.strategy ≠ "original".toList →
        generateFileName naming originalName uuidStr nowUnixNano
          = .error ("INVALID_NAMING_STRATEGY".toList)) ∧
      (∀ (pre post uuidStr : Str) (nowUnixNano : Nat),
        (∀ c ∈ post, c ≠ '.' ∧ c ≠ '/') →
        generateFileName ⟨"original".toList, false⟩ (pre ++ '.' :: post) uuidStr nowUnixNano
          = .ok pre) ∧
      ∀ (name uuidStr : Str) (nowUnixNano : Nat), '.' ∉ name →
        generateFileName ⟨"uuid".toList, true⟩ name uuidStr nowUnixNano = .ok uuidStr ∧
          generateFileName ⟨"timestamp".toList, true⟩ name uuidStr nowUnixNano
            = .ok (natToChars nowUnixNano) ∧
          generateFileName ⟨"original".toList, false⟩ name uuidStr nowUnixNano
            = .ok name := by
  refine ⟨?_, ?_, ?_⟩
  · intro naming originalName uuidStr nowUnixNano h1 h2 h3
    simp [generateFileName,
      show naming.strategy ≠ ['u', 'u', 'i', 'd'] from h1,
      show naming.strategy ≠ ['t', 'i', 'm', 'e', 's', 't', 'a', 'm', 'p'] from h2,
      show naming.strategy ≠ ['o', 'r', 'i', 'g', 'i', 'n', 'a', 'l'] from h3]
  · intro pre post uuidStr nowUnixNano h
    have e1 : (("original".toList : Str) == "uuid".toList) = false := by decide
    have e2 : (("original".toList : Str) == "timestamp".toList) = false := by decide
    have e3 : (("original".toList : Str) == "original".toList) = true := by decide
    simp only [generateFileName, e1, e2, e3, Bool.false_eq_true, if_false, if_true]
    rw [goFilepathExt_split _ _ h, goTrimSuffix_append]
  · intro name uuidStr nowUnixNano h
    have hext := goFilepathExt_no_dot name h
    refine ⟨?_, ?_, ?_⟩
    · simp [generateFileName, hext]
    · simp [generateFileName, hext]
    · have e1 : (("original".toList : Str) == "uuid".toList) = false := by decide
      have e2 : (("original".toList : Str) == "timestamp".toList) = false := by decide
      have e3 : (("original".toList : Str) == "original".toList) = true := by decide
      simp only [generateFileName, e1, e2, e3, Bool.false_eq_true, if_false, if_true]
      rw [hext, goTrimSuffix_nil]

/-- C9 witness: an unrecognized strategy errors; `original` without
extension preservation strips `".tar"`; a dotless name appends nothing
under the uuid strategy. -/
theorem c9_witness :
    generateFileName ⟨"banana".toList, true⟩ ("a.txt".toList) ("u".toList) 7
        = .error ("INVALID_NAMING_STRATEGY".toList) ∧
      generateFileName ⟨"original".toList, false⟩ ("archive".toList ++ '.' :: "tar".toList)
          ("u".toList) 7 = .ok ("archive".toList) ∧
      generateFileName ⟨"uuid".toList, true⟩ ("noext".toList) ("u".toList) 7
        = .ok ("u".toList) :=
  ⟨c9_naming_strategy_closed_set_and_extension_stripping.1 ⟨"banana".toList, true⟩
      ("a.txt".toList) ("u".toList) 7 (by decide) (by decide) (by decide),
    c9_naming_strategy_closed_set_and_extension_stripping.2.1 ("archive".toList)
      ("tar".toList) ("u".toList) 7 (by decide),
    (c9_naming_strategy_closed_set_and_extension_stripping.2.2 ("noext".toList)
      ("u".toList) 7 (by decide)).1⟩

/-- C10: when the configured `defaultMaxSize` does not parse,
`GetDefaultMaxFileSize` silently returns the hard-coded 10 MiB fallback,
and both resolution sites of the default limit — a matched allow rule
without its own `maxSize`, and the default action — proceed with that
10485760-byte limit. -/
theorem c10_unparsable_default_max_size_falls_back_to_ten_mib
    (c : FileValidationConfig) (h : parseSizeString c.defaultMaxSize = none) :
    getDefaultMaxFileSize c = 10485760 ∧
      (∀ (r : ValidationRule) (fileSize : Int) (ext : Str),
        r.allow = true → r.maxSize = [] →
        (applyRule c r fileSize ext).maxSize = 10485760) ∧
      ∀ (ext filename mimeType : Str) (fileSize : Int),
        (applyDefaultAction c ext filename mimeType fileSize).maxSize = 10485760 := by
  have hd : getDefaultMaxFileSize c = 10485760 := by
    simp [getDefaultMaxFileSize, h]
  refine ⟨hd, ?_, ?_⟩
  · intro r fileSize ext hallow hms
    simp only [applyRule, hallow, hms, hd]
    repeat' split
    all_goals simp_all
  · intro ext filename mimeType fileSize
    simp only [applyDefaultAction, hd]
    repeat' split
    all_goals rfl

/-- C10 witness: with the unparsable default `"lots"`, the default action
proceeds with the 10 MiB fallback limit. -/
theorem c10_witness :
    parseSizeString cfgUnparsableDefault.defaultMaxSize = none ∧
      getDefaultMaxFileSize cfgUnparsableDefault = 10485760 ∧
      (applyDefaultAction cfgUnparsableDefault ("bin".toList) ("a.bin".toList)
        ("application/octet-stream".toList) 5).maxSize = 10485760 :=
  ⟨by decide,
    (c10_unparsable_default_max_size_falls_back_to_ten_mib cfgUnparsableDefault
      (by decide)).1,
    (c10_unparsable_default_max_size_falls_back_to_ten_mib cfgUnparsableDefault
      (by decide)).2.2 ("bin".toList) ("a.bin".toList)
      ("application/octet-stream".toList) 5⟩

/-- C7 (counterexample): the glob star compiles to Go regexp `.*`, whose
`.` does not match a newline — so `*.pdf` rejects `"a\n.pdf"` although
`"a\n"` is a run of characters (the claim's `*` = "any run of characters"
predicts a match); the same run without the newline matches. -/
theorem c7_star_does_not_cross_newline :
    matchesPattern ("a\n.pdf".toList) ("*.pdf".toList) = false ∧
      matchesPattern ("ab.pdf".toList) ("*.pdf".toList) = true :=
  ⟨by decide, by decide⟩

/-- C7 (amended): glob matching translates `*` to any run of non-newline
characters and `?` to exactly one non-newline character (Go regexp `.`
excludes the newline), escapes every other character as a literal, and
anchors the pattern to the full filename: all four of the claim's
examples behave as stated (matching is case-sensitive), `?` accepts
exactly one ordinary character, a literal dot is not a wildcard, every
newline-free run followed by `".pdf"` matches `*.pdf`, and anything
`*.pdf` matches ends in `".pdf"`. -/
theorem c7_glob_star_question_literal_anchored :
    matchesPattern ("report.pdf".toList) ("*.pdf".toList) = true ∧
      matchesPattern ("a.b.pdf".toList) ("*.pdf".toList) = true ∧
      matchesPattern ("report.pdfx".toList) ("*.pdf".toList) = false ∧
      matchesPattern ("report.PDF".toList) ("*.pdf".toList) = false ∧
      matchesPattern ("ab".toList) ("a?".toList) = true ∧
      matchesPattern ("a\n".toList) ("a?".toList) = false ∧
      matchesPattern ("abc".toList) ("a?".toList) = false ∧
      matchesPattern ("aXb".toList) ("a.b".toList) = false ∧
      matchesPattern ("a.b".toList) ("a.b".toList) = true ∧
      (∀ s : Str, '\n' ∉ s →
        matchesPattern (s ++ ".pdf".toList) ("*.pdf".toList) = true) ∧
      ∀ s : Str, matchesPattern s ("*.pdf".toList) = true →
        goHasSuffix s (".pdf".toList) = true := by
  refine ⟨by decide, by decide, by decide, by decide, by decide, by decide, by decide,
    by decide, by decide, ?_, ?_⟩
  · intro s h
    unfold matchesPattern goRegexMatchString
    rw [show parseRegex (globToRegex ("*.pdf".toList))
        = .caret :: [.anyStar, .lit '.', .lit 'p', .lit 'd', .lit 'f', .dollar] from rfl]
    apply search_of_match
    rw [show matchToks
        (.caret :: [.anyStar, .lit '.', .lit 'p', .lit 'd', .lit 'f', .dollar])
        (s ++ ".pdf".toList) true
        = (true && matchToks [.anyStar, .lit '.', .lit 'p', .lit 'd', .lit 'f', .dollar]
            (s ++ ".pdf".toList) true) from rfl, Bool.true_and]
    rw [show matchToks [.anyStar, .lit '.', .lit 'p', .lit 'd', .lit 'f', .dollar]
        (s ++ ".pdf".toList) true
        = (List.range ((s ++ ".pdf".toList).length + 1)).any (fun k =>
            ((s ++ ".pdf".toList).take k).all (fun c => !(c == '\n')) &&
              matchToks [.lit '.', .lit 'p', .lit 'd', .lit 'f', .dollar]
                ((s ++ ".pdf".toList).drop k) (true && (k == 0))) from rfl]
    rw [List.any_eq_true]
    refine ⟨s.length, List.mem_range.mpr (by simp [List.length_append]; omega), ?_⟩
    rw [List.take_left, List.drop_left, Bool.and_eq_true]
    constructor
    · rw [List.all_eq_true]
      intro c hc
      have hne : c ≠ '\n' := fun e => h (by rw [← e]; exact hc)
      simpa using hne
    · exact (matchToks_lit_pdf _ _).mpr rfl
  · intro s h
    unfold matchesPattern goRegexMatchString at h
    rw [show parseRegex (globToRegex ("*.pdf".toList))
        = .caret :: [.anyStar, .lit '.', .lit 'p', .lit 'd', .lit 'f', .dollar] from rfl,
      search_with_caret] at h
    rw [show matchToks
        (.caret :: [.anyStar, .lit '.', .lit 'p', .lit 'd', .lit 'f', .dollar]) s true
        = (true && matchToks [.anyStar, .lit '.', .lit 'p', .lit 'd', .lit 'f', .dollar]
            s true) from rfl, Bool.true_and] at h
    rw [show matchToks [.anyStar, .lit '.', .lit 'p', .lit 'd', .lit 'f', .dollar] s true
        = (List.range (s.length + 1)).any (fun k =>
            (s.take k).all (fun c => !(c == '\n')) &&
              matchToks [.lit '.', .lit 'p', .lit 'd', .lit 'f', .dollar]
                (s.drop k) (true && (k == 0))) from rfl] at h
    rw [List.any_eq_true] at h
    obtain ⟨k, -, hk⟩ := h
    rw [Bool.and_eq_true] at hk
    have hdrop := (matchToks_lit_pdf _ _).mp hk.2
    calc goHasSuffix s (".pdf".toList)
        = goHasSuffix (s.take k ++ s.drop k) (".pdf".toList) := by
          rw [List.take_append_drop]
      _ = true := by rw [hdrop]; exact goHasSuffix_append _ _

/-- C7 witness: the two universal parts of the amended claim at concrete
inputs — `"hello"` is newline-free and `"hello.pdf"` matches `*.pdf`, and
a match forces the `".pdf"` suffix on `"x.pdf"`. -/
theorem c7_witness :
    ('\n' ∉ ("hello".toList : Str)) ∧
      matchesPattern ("hello".toList ++ ".pdf".toList) ("*.pdf".toList) = true ∧
      goHasSuffix ("x.pdf".toList) (".pdf".toList) = true :=
  ⟨by decide,
    c7_glob_star_question_literal_anchored.2.2.2.2.2.2.2.2.2.1 ("hello".toList) (by decide),
    c7_glob_star_question_literal_anchored.2.2.2.2.2.2.2.2.2.2 ("x.pdf".toList) (by decide)⟩

/-- C4 (amended): for every non-negative byte count `n` the round trip
fails outright — `ParseSizeString (FormatFileSize n)` returns a parse
error for every `n`, because `FormatFileSize` writes a space between the
magnitude and the unit and `ParseSizeString` accepts no space inside the
number; no unit band is ever reached. -/
theorem c4_format_then_parse_always_errors (n : Int) (h : 0 ≤ n) :
    parseSizeString (formatFileSize n) = none := by
  obtain ⟨c, mid, heq, hc, hsp⟩ := formatFileSize_shape n h
  apply parseSizeString_none_of_space
  rw [heq, show (c :: mid) ++ ['B'] = c :: (mid ++ ['B']) from rfl,
    goTrimSpace_sandwich c 'B' mid (digit_not_space hc) (by decide)]
  simp [hsp]

/-- C4 witness: the round trip errors at 5 MiB, where `FormatFileSize`
renders `"5.0 MB"`. -/
theorem c4_witness :
    (0 : Int) ≤ 5242880 ∧ parseSizeString (formatFileSize 5242880) = none :=
  ⟨by decide, c4_format_then_parse_always_errors 5242880 (by decide)⟩

end StorageApi
